import Mathlib

/-!
Shallow embedding of the kms-reporter encryption-status analysis core:
`pkg/utils/utils.go` (ParseEtcdObject), `pkg/reader/reader.go`
(analyzeSecretEncryption, getLatestProviderSeq) and `pkg/recorder/recorder.go`
(formatSecretLists, Record, createConfigMap, updateConfigMap).

Go strings are embedded as `List Char`.  Both separators used by the code
(`"/"` and `":"`) are single characters, so Go's `strings.Split` is embedded
as `splitOnChar`.  `strconv.Atoi` is embedded as `goAtoiL` (optional single
sign, at least one decimal digit, 64-bit signed range).  The Go regular
expression `kmsProviderName + (\d+)` built by `getLatestProviderSeq` is an
unanchored search for the provider name followed by at least one digit; it is
embedded as `regexFindDigits`, which scans start positions left to right and
captures the maximal digit run (the provider name is treated as a literal
string, which coincides with the regex semantics for names free of regex
metacharacters, as all names in this repository are).
-/

namespace KmsReporter

/-- Go `strings.Split` for a single-character separator: `splitOnChar c s`
splits `s` at every occurrence of `c`; the empty string yields `[[]]`. -/
def splitOnChar (sep : Char) : List Char → List (List Char)
  | [] => [[]]
  | c :: rest =>
    match splitOnChar sep rest with
    | [] => [[]]
    | h :: t => if c = sep then [] :: h :: t else (c :: h) :: t

/-- Go `strings.TrimPrefix p s`: drops `pfx` from the front of `s` when `s`
starts with `pfx`, otherwise returns `s` unchanged. -/
def trimPrefixL (pfx s : List Char) : List Char :=
  if pfx.isPrefixOf s then s.drop pfx.length else s

/-- Decimal value of a digit string, as Go's conversion loop computes it. -/
def digitsVal (ds : List Char) : Nat :=
  ds.foldl (fun a c => a * 10 + (c.toNat - 48)) 0

/-- Sign-applied core of Go `strconv.Atoi`: requires a nonempty all-digit
string and a result in the 64-bit signed range. -/
def goAtoiCore (sign : Int) (ds : List Char) : Option Int :=
  if ds ≠ [] ∧ ds.all Char.isDigit = true then
    let n : Int := sign * (digitsVal ds : Int)
    if -(2 ^ 63) ≤ n ∧ n < 2 ^ 63 then some n else none
  else none

/-- Go `strconv.Atoi`: an optional leading sign followed by at least one
decimal digit, rejected when out of the 64-bit signed range. -/
def goAtoiL (s : List Char) : Option Int :=
  if s.headD ' ' = '-' then goAtoiCore (-1) s.tail
  else if s.headD ' ' = '+' then goAtoiCore 1 s.tail
  else goAtoiCore 1 s

/-- The envelope marker `"k8s:enc:kms:"` from `pkg/utils/utils.go`. -/
def etcdObjectValueKmsEncryptedPrefix : List Char := "k8s:enc:kms:".toList

/-- The three error returns of `ParseEtcdObject`. -/
inductive ParseErr where
  | invalidKeyFormat
  | invalidEncryptedValueFormat
  | failedToConvertSeqToInt
deriving DecidableEq

/-- The four return values of `ParseEtcdObject`:
`(encrypted, secret, seq, err)`. -/
structure ParsedEtcdObject where
  encrypted : Bool
  secret : List Char
  seq : Int
  err : Option ParseErr
deriving DecidableEq

/-- Function `ParseEtcdObject` from `pkg/utils/utils.go`: marker-prefix test on the
value, `<segment3>/<segment4>` identity from the key (at least 5 slash
segments required), and for encrypted values (at least 6 colon fields
required) the generation obtained by `Atoi` of the fifth field with the
provider name prefix trimmed. -/
def parseEtcdObjectL (k v pfx : List Char) : ParsedEtcdObject :=
  let encrypted := etcdObjectValueKmsEncryptedPrefix.isPrefixOf v
  let keyParts := splitOnChar '/' k
  if keyParts.length < 5 then
    ⟨encrypted, [], 0, some ParseErr.invalidKeyFormat⟩
  else
    let secret := keyParts.getD 3 [] ++ '/' :: keyParts.getD 4 []
    if encrypted then
      let valueParts := splitOnChar ':' v
      if valueParts.length < 6 then
        ⟨encrypted, secret, 0, some ParseErr.invalidEncryptedValueFormat⟩
      else
        let seqStr := trimPrefixL pfx (valueParts.getD 4 [])
        match goAtoiL seqStr with
        | some n => ⟨encrypted, secret, n, none⟩
        | none => ⟨encrypted, secret, 0, some ParseErr.failedToConvertSeqToInt⟩
    else
      ⟨encrypted, secret, 0, none⟩

/-- String-level wrapper of `parseEtcdObjectL`. -/
def parseEtcdObject (k v pfx : String) : ParsedEtcdObject :=
  parseEtcdObjectL k.toList v.toList pfx.toList

/-! ## Batch analyzer (`pkg/reader/reader.go`, `analyzeSecretEncryption`) -/

/-- Structure `EncryptionAnalysisResult` from `pkg/reader/types.go`. -/
structure EncryptionAnalysisResult where
  EncryptedSecrets : List (List Char)
  UnencryptedSecrets : List (List Char)
  AllSecretsUseLatestProvider : Bool
deriving DecidableEq

/-- One iteration of the loop body of `analyzeSecretEncryption`: parse the
record, skip it on error, otherwise flip the flag when the sequence differs
from the latest one and append the identity to the matching list. -/
def analyzeStep (pfx : List Char) (latestProviderSeq : Int)
    (acc : EncryptionAnalysisResult) (kv : List Char × List Char) :
    EncryptionAnalysisResult :=
  let r := parseEtcdObjectL kv.1 kv.2 pfx
  match r.err with
  | some _ => acc
  | none =>
    let acc1 := if r.seq ≠ latestProviderSeq then
        { acc with AllSecretsUseLatestProvider := false }
      else acc
    if r.encrypted then
      { acc1 with EncryptedSecrets := acc1.EncryptedSecrets ++ [r.secret] }
    else
      { acc1 with UnencryptedSecrets := acc1.UnencryptedSecrets ++ [r.secret] }

/-- Function `analyzeSecretEncryption` from `pkg/reader/reader.go`: fold of
`analyzeStep` over the key-value snapshot, starting from empty lists and a
`true` flag. -/
def analyzeSecretEncryption (pfx : List Char)
    (kvs : List (List Char × List Char)) (latestProviderSeq : Int) :
    EncryptionAnalysisResult :=
  kvs.foldl (analyzeStep pfx latestProviderSeq) ⟨[], [], true⟩

/-! ## Provider-generation resolver (`pkg/reader/reader.go`,
`getLatestProviderSeq`): the pure part after the ConfigMap fetch and YAML
unmarshalling, over the already-decoded `EncryptionConfiguration`. -/

/-- Structure `KMSProvider` from `pkg/reader/types.go`. -/
structure KMSProvider where
  APIVersion : List Char
  Endpoint : List Char
  Name : List Char
deriving DecidableEq

/-- Structure `Provider` from `pkg/reader/types.go`: the `Identity` pointer is kept
as a flag; only `KMS` being non-nil matters to the resolver. -/
structure Provider where
  KMS : Option KMSProvider
  Identity : Bool
deriving DecidableEq

/-- Structure `Resource` from `pkg/reader/types.go`. -/
structure Resource where
  Providers : List Provider
  Resources : List (List Char)
deriving DecidableEq

/-- Structure `EncryptionConfiguration` from `pkg/reader/types.go`. -/
structure EncryptionConfiguration where
  APIVersion : List Char
  Kind : List Char
  Resources : List Resource
deriving DecidableEq

/-- Constant `identityProviderSeq` from `pkg/reader/reader.go`. -/
def identityProviderSeq : Int := -1

/-- Match of the regex `pfx(\d+)` anchored at the start of `s`: `pfx`
followed by at least one digit, capturing the maximal digit run. -/
def regexMatchAt (pfx s : List Char) : Option (List Char) :=
  if pfx.isPrefixOf s then
    let digits := (s.drop pfx.length).takeWhile Char.isDigit
    if digits.isEmpty then none else some digits
  else none

/-- Go `FindStringSubmatch` of the unanchored regex `pfx(\d+)`: the captured
digit group of the leftmost match, scanning start positions left to right. -/
def regexFindDigits (pfx : List Char) : List Char → Option (List Char)
  | [] => none
  | c :: rest =>
    match regexMatchAt pfx (c :: rest) with
    | some ds => some ds
    | none => regexFindDigits pfx rest

/-- The sequence number one provider entry contributes in
`getLatestProviderSeq`: present when the entry is a KMS entry, its name
matches the regex, and `Atoi` of the captured digits succeeds. -/
def kmsEntrySeq (pfx : List Char) (prov : Provider) : Option Int :=
  match prov.KMS with
  | none => none
  | some kms =>
    match regexFindDigits pfx kms.Name with
    | none => none
    | some ds => goAtoiL ds

/-- The inner loop of `getLatestProviderSeq`: first provider entry of a rule
that yields a sequence number wins; failures are skipped. -/
def scanProviders (pfx : List Char) : List Provider → Option Int
  | [] => none
  | prov :: rest =>
    match kmsEntrySeq pfx prov with
    | some n => some n
    | none => scanProviders pfx rest

/-- The outer loop of `getLatestProviderSeq` over the resource rules. -/
def scanResources (pfx : List Char) : List Resource → Option Int
  | [] => none
  | res :: rest =>
    match scanProviders pfx res.Providers with
    | some n => some n
    | none => scanResources pfx rest

/-- Function `getLatestProviderSeq` from `pkg/reader/reader.go` (pure part): the first
sequence number found by the nested scan, or `identityProviderSeq` when no
rule contains a matching KMS provider. -/
def getLatestProviderSeq (pfx : List Char) (cfg : EncryptionConfiguration) :
    Int :=
  (scanResources pfx cfg.Resources).getD identityProviderSeq

/-! ## Recorder (`pkg/recorder/recorder.go`): the data-shaping part of
`Record`, `createConfigMap` and `updateConfigMap`, with the ConfigMap's
`Data` map embedded as a function from keys to optional values. -/

/-- Constant `allSecretsPattern` from `pkg/recorder/recorder.go`. -/
def allSecretsPattern : List Char := "ALL_SECRETS".toList

/-- Constant `encryptedSecretsKey` from `pkg/recorder/recorder.go`. -/
def encryptedSecretsKey : List Char := "ENCRYPTED".toList

/-- Constant `unencryptedSecretsKey` from `pkg/recorder/recorder.go`. -/
def unencryptedSecretsKey : List Char := "UNENCRYPTED".toList

/-- Constant `encryptedByLatestProviderKey` from `pkg/recorder/recorder.go`. -/
def encryptedByLatestProviderKey : List Char := "ENCRYPTED_BY_LATEST_SEQ".toList

/-- A ConfigMap's string-to-string `Data` map. -/
abbrev CMData := List Char → Option (List Char)

/-- The empty `Data` map. -/
def emptyCMData : CMData := fun _ => none

/-- Map update `m[k] = v`. -/
def mapSet (m : CMData) (k v : List Char) : CMData :=
  fun x => if x = k then some v else m x

/-- Map deletion `delete(m, k)`. -/
def mapDelete (m : CMData) (k : List Char) : CMData :=
  fun x => if x = k then none else m x

/-- Go `fmt.Sprintf` with verb `%t`. -/
def fmtBool (b : Bool) : List Char :=
  if b then "true".toList else "false".toList

/-- Go `strings.Join(l, ",")`. -/
def joinComma (l : List (List Char)) : List Char :=
  List.intercalate [','] l

/-- Function `formatSecretLists` from `pkg/recorder/recorder.go`: comma-joined lists
in the mixed case, the `ALL_SECRETS` sentinel when only one list is
populated, empty strings when both lists are empty. -/
def formatSecretLists (encryptedSecrets unencryptedSecrets : List (List Char)) :
    List Char × List Char :=
  let hasEncrypted := !encryptedSecrets.isEmpty
  let hasUnencrypted := !unencryptedSecrets.isEmpty
  if hasEncrypted && hasUnencrypted then
    (joinComma encryptedSecrets, joinComma unencryptedSecrets)
  else if !hasEncrypted && hasUnencrypted then
    ([], allSecretsPattern)
  else if hasEncrypted && !hasUnencrypted then
    (allSecretsPattern, [])
  else
    ([], [])

/-- The `Data` map built by `createConfigMap`: the two list fields, plus the
latest-provider boolean only when all secrets are encrypted. -/
def createConfigMapData (encryptedValue unencryptedValue : List Char)
    (allSecretsEncrypted allSecretsUseLatestProvider : Bool) : CMData :=
  let d := mapSet (mapSet emptyCMData encryptedSecretsKey encryptedValue)
    unencryptedSecretsKey unencryptedValue
  if allSecretsEncrypted then
    mapSet d encryptedByLatestProviderKey (fmtBool allSecretsUseLatestProvider)
  else d

/-- The `Data` map produced by `updateConfigMap` from an existing map: both
list fields overwritten; the latest-provider boolean set when all secrets are
encrypted and deleted otherwise. -/
def updateConfigMapData (d : CMData) (encryptedValue unencryptedValue : List Char)
    (allSecretsEncrypted allSecretsUseLatestProvider : Bool) : CMData :=
  let d1 := mapSet (mapSet d encryptedSecretsKey encryptedValue)
    unencryptedSecretsKey unencryptedValue
  if allSecretsEncrypted then
    mapSet d1 encryptedByLatestProviderKey (fmtBool allSecretsUseLatestProvider)
  else
    mapDelete d1 encryptedByLatestProviderKey

/-- The data-shaping part of `Record` from `pkg/recorder/recorder.go`:
`allSecretsEncrypted` is emptiness of the unencrypted list, the lists are
formatted by `formatSecretLists`, and the stored `Data` map is built by
`createConfigMapData` when no ConfigMap exists and by `updateConfigMapData`
over the existing map otherwise. -/
def recordData (existing : Option CMData)
    (encryptedSecrets unencryptedSecrets : List (List Char))
    (allSecretsUseLatestProvider : Bool) : CMData :=
  let allSecretsEncrypted := unencryptedSecrets.isEmpty
  let fv := formatSecretLists encryptedSecrets unencryptedSecrets
  match existing with
  | none => createConfigMapData fv.1 fv.2 allSecretsEncrypted
      allSecretsUseLatestProvider
  | some d => updateConfigMapData d fv.1 fv.2 allSecretsEncrypted
      allSecretsUseLatestProvider

/-! ## Helper lemmas about the classifier -/

/-- The identity `<segment3>/<segment4>` extracted from a key. -/
def keyIdentity (k : List Char) : List Char :=
  (splitOnChar '/' k).getD 3 [] ++ '/' :: (splitOnChar '/' k).getD 4 []

theorem parseEtcdObjectL_encrypted (k v pfx : List Char) :
    (parseEtcdObjectL k v pfx).encrypted =
      etcdObjectValueKmsEncryptedPrefix.isPrefixOf v := by
  simp only [parseEtcdObjectL]
  split
  · rfl
  · split
    · split
      · rfl
      · split <;> rfl
    · rfl

theorem parseEtcdObjectL_short_key (k v pfx : List Char)
    (h : (splitOnChar '/' k).length < 5) :
    parseEtcdObjectL k v pfx =
      ⟨etcdObjectValueKmsEncryptedPrefix.isPrefixOf v, [], 0,
        some ParseErr.invalidKeyFormat⟩ := by
  simp only [parseEtcdObjectL]
  rw [if_pos h]

theorem parseEtcdObjectL_secret (k v pfx : List Char)
    (h : ¬ (splitOnChar '/' k).length < 5) :
    (parseEtcdObjectL k v pfx).secret = keyIdentity k := by
  simp only [parseEtcdObjectL, keyIdentity]
  rw [if_neg h]
  split
  · split
    · rfl
    · split <;> rfl
  · rfl

theorem parseEtcdObjectL_plaintext (k v pfx : List Char)
    (h : ¬ (splitOnChar '/' k).length < 5)
    (henc : etcdObjectValueKmsEncryptedPrefix.isPrefixOf v = false) :
    parseEtcdObjectL k v pfx = ⟨false, keyIdentity k, 0, none⟩ := by
  simp only [parseEtcdObjectL, keyIdentity]
  rw [if_neg h, henc]
  simp

theorem parseEtcdObjectL_encrypted_branch (k v pfx : List Char)
    (h : ¬ (splitOnChar '/' k).length < 5)
    (henc : etcdObjectValueKmsEncryptedPrefix.isPrefixOf v = true)
    (h6 : ¬ (splitOnChar ':' v).length < 6) :
    parseEtcdObjectL k v pfx =
      match goAtoiL (trimPrefixL pfx ((splitOnChar ':' v).getD 4 [])) with
      | some n => ⟨true, keyIdentity k, n, none⟩
      | none =>
        ⟨true, keyIdentity k, 0, some ParseErr.failedToConvertSeqToInt⟩ := by
  simp only [parseEtcdObjectL, keyIdentity]
  rw [if_neg h, henc]
  simp only [if_true, if_neg h6]

theorem parseEtcdObjectL_short_value (k v pfx : List Char)
    (h : ¬ (splitOnChar '/' k).length < 5)
    (henc : etcdObjectValueKmsEncryptedPrefix.isPrefixOf v = true)
    (h6 : (splitOnChar ':' v).length < 6) :
    parseEtcdObjectL k v pfx =
      ⟨true, keyIdentity k, 0, some ParseErr.invalidEncryptedValueFormat⟩ := by
  simp only [parseEtcdObjectL, keyIdentity]
  rw [if_neg h, henc]
  simp only [if_true, if_pos h6]

/-! ## C5: identity extraction from the key -/

/-- C5: for every key with at least 5 slash-delimited segments the classifier
returns the identity `<segment3>/<segment4>` (later segments are truncated),
and for every key with fewer segments it returns the
`invalid key format` parse error. -/
theorem claim5_key_identity (k v pfx : List Char) :
    (5 ≤ (splitOnChar '/' k).length →
      (parseEtcdObjectL k v pfx).secret =
        (splitOnChar '/' k).getD 3 [] ++ '/' :: (splitOnChar '/' k).getD 4 []) ∧
    ((splitOnChar '/' k).length < 5 →
      (parseEtcdObjectL k v pfx).err = some ParseErr.invalidKeyFormat) ∧
    (parseEtcdObjectL "/registry/secrets/ns/a/b/c".toList v pfx).secret =
      "ns/a".toList := by
  refine ⟨fun h => ?_, fun h => ?_, ?_⟩
  · exact parseEtcdObjectL_secret k v pfx (by omega)
  · rw [parseEtcdObjectL_short_key k v pfx h]
  · rw [parseEtcdObjectL_secret _ v pfx (by decide)]
    decide

/-! ## C7: encryption detection is exactly the marker-prefix test -/

/-- C7: a record is classified as encrypted iff its value starts with the
literal marker `"k8s:enc:kms:"`; a value not starting with the marker always
yields `encrypted = false` and generation `0`, and the classifier result does
not depend on such a value in any other way. -/
theorem claim7_marker_detection (k v pfx : List Char) :
    ((parseEtcdObjectL k v pfx).encrypted = true ↔
      etcdObjectValueKmsEncryptedPrefix <+: v) ∧
    (¬ etcdObjectValueKmsEncryptedPrefix <+: v →
      (parseEtcdObjectL k v pfx).encrypted = false ∧
      (parseEtcdObjectL k v pfx).seq = 0) ∧
    (∀ v2, ¬ etcdObjectValueKmsEncryptedPrefix <+: v →
      ¬ etcdObjectValueKmsEncryptedPrefix <+: v2 →
      parseEtcdObjectL k v pfx = parseEtcdObjectL k v2 pfx) := by
  refine ⟨?_, fun h => ?_, fun v2 h h2 => ?_⟩
  · rw [parseEtcdObjectL_encrypted]
    simp
  · have henc : etcdObjectValueKmsEncryptedPrefix.isPrefixOf v = false := by
      rw [Bool.eq_false_iff]
      exact fun hb => h (by simpa using hb)
    constructor
    · rw [parseEtcdObjectL_encrypted, henc]
    · by_cases h5 : (splitOnChar '/' k).length < 5
      · rw [parseEtcdObjectL_short_key k v pfx h5]
      · rw [parseEtcdObjectL_plaintext k v pfx h5 henc]
  · have henc : etcdObjectValueKmsEncryptedPrefix.isPrefixOf v = false := by
      rw [Bool.eq_false_iff]
      exact fun hb => h (by simpa using hb)
    have henc2 : etcdObjectValueKmsEncryptedPrefix.isPrefixOf v2 = false := by
      rw [Bool.eq_false_iff]
      exact fun hb => h2 (by simpa using hb)
    by_cases h5 : (splitOnChar '/' k).length < 5
    · rw [parseEtcdObjectL_short_key k v pfx h5,
        parseEtcdObjectL_short_key k v2 pfx h5, henc, henc2]
    · rw [parseEtcdObjectL_plaintext k v pfx h5 henc,
        parseEtcdObjectL_plaintext k v2 pfx h5 henc2]

/-! ## C9: partial results accompany every error -/

/-- C9: the returned `encrypted` flag always equals the marker-prefix test,
even when an error is returned; and on both value-borne errors (too few colon
fields, generation conversion failure) the returned secret is the
already-extracted `<segment3>/<segment4>` identity. -/
theorem claim9_partial_results (k v pfx : List Char) :
    ((parseEtcdObjectL k v pfx).encrypted =
      etcdObjectValueKmsEncryptedPrefix.isPrefixOf v) ∧
    (∀ e, (parseEtcdObjectL k v pfx).err = some e →
      e ≠ ParseErr.invalidKeyFormat →
      (parseEtcdObjectL k v pfx).secret =
        (splitOnChar '/' k).getD 3 [] ++ '/' :: (splitOnChar '/' k).getD 4 []) := by
  refine ⟨parseEtcdObjectL_encrypted k v pfx, fun e he hne => ?_⟩
  by_cases h5 : (splitOnChar '/' k).length < 5
  · rw [parseEtcdObjectL_short_key k v pfx h5] at he
    exact absurd (Option.some_injective _ he).symm hne
  · exact parseEtcdObjectL_secret k v pfx h5

/-! ## Helper lemmas about the batch analyzer -/

/-- The generation of a successfully classified record, `none` on a parse
error. -/
def classifySeq (pfx : List Char) (kv : List Char × List Char) : Option Int :=
  match (parseEtcdObjectL kv.1 kv.2 pfx).err with
  | none => some (parseEtcdObjectL kv.1 kv.2 pfx).seq
  | some _ => none

/-- The identity a record contributes to the encrypted list, if any. -/
def encOut (pfx : List Char) (kv : List Char × List Char) :
    Option (List Char) :=
  match (parseEtcdObjectL kv.1 kv.2 pfx).err,
      (parseEtcdObjectL kv.1 kv.2 pfx).encrypted with
  | none, true => some (parseEtcdObjectL kv.1 kv.2 pfx).secret
  | _, _ => none

/-- The identity a record contributes to the unencrypted list, if any. -/
def unencOut (pfx : List Char) (kv : List Char × List Char) :
    Option (List Char) :=
  match (parseEtcdObjectL kv.1 kv.2 pfx).err,
      (parseEtcdObjectL kv.1 kv.2 pfx).encrypted with
  | none, false => some (parseEtcdObjectL kv.1 kv.2 pfx).secret
  | _, _ => none

/-- Whether a record leaves the all-latest flag intact: a skipped record or a
classified record whose generation equals the expected one. -/
def recOk (pfx : List Char) (latest : Int) (kv : List Char × List Char) :
    Bool :=
  match classifySeq pfx kv with
  | some n => n == latest
  | none => true

theorem analyzeStep_eq (pfx : List Char) (latest : Int)
    (acc : EncryptionAnalysisResult) (kv : List Char × List Char) :
    analyzeStep pfx latest acc kv =
      ⟨acc.EncryptedSecrets ++ (encOut pfx kv).toList,
       acc.UnencryptedSecrets ++ (unencOut pfx kv).toList,
       acc.AllSecretsUseLatestProvider && recOk pfx latest kv⟩ := by
  obtain ⟨E, U, A⟩ := acc
  simp only [analyzeStep, encOut, unencOut, recOk, classifySeq]
  cases h : (parseEtcdObjectL kv.1 kv.2 pfx).err with
  | some e => simp
  | none =>
    cases he : (parseEtcdObjectL kv.1 kv.2 pfx).encrypted <;>
      by_cases hs : (parseEtcdObjectL kv.1 kv.2 pfx).seq = latest <;>
      simp [hs]

theorem analyze_foldl (pfx : List Char) (latest : Int)
    (kvs : List (List Char × List Char)) :
    ∀ acc, List.foldl (analyzeStep pfx latest) acc kvs =
      ⟨acc.EncryptedSecrets ++ kvs.filterMap (encOut pfx),
       acc.UnencryptedSecrets ++ kvs.filterMap (unencOut pfx),
       acc.AllSecretsUseLatestProvider && kvs.all (recOk pfx latest)⟩ := by
  induction kvs with
  | nil => intro acc; simp
  | cons kv rest ih =>
    intro acc
    rw [List.foldl_cons, analyzeStep_eq, ih]
    cases he : encOut pfx kv <;> cases hu : unencOut pfx kv <;>
      simp [List.filterMap_cons, he, hu, Bool.and_assoc]

/-- The report the analyzer produces, in closed form. -/
theorem analyzeSecretEncryption_eq (pfx : List Char) (latest : Int)
    (kvs : List (List Char × List Char)) :
    analyzeSecretEncryption pfx kvs latest =
      ⟨kvs.filterMap (encOut pfx), kvs.filterMap (unencOut pfx),
       kvs.all (recOk pfx latest)⟩ := by
  unfold analyzeSecretEncryption
  rw [analyze_foldl]
  simp

theorem recOk_iff (pfx : List Char) (latest : Int)
    (kv : List Char × List Char) :
    recOk pfx latest kv = true ↔
      ∀ n, classifySeq pfx kv = some n → n = latest := by
  unfold recOk
  cases h : classifySeq pfx kv with
  | none => simp
  | some m =>
    simp only [beq_iff_eq]
    constructor
    · rintro rfl n hn
      exact (Option.some_injective _ hn).symm
    · exact fun h2 => h2 m rfl

/-! ## C1: the aggregate compliance flag -/

/-- C1: the report's flag is `true` iff every successfully classified
record's generation equals the expected one; any classified record with a
differing generation flips the flag to `false`; once `false` the flag stays
`false` for the remainder of the batch; and the empty batch yields empty
lists and a `true` flag. -/
theorem claim1_all_match_flag (pfx : List Char) (latest : Int)
    (kvs : List (List Char × List Char)) :
    ((analyzeSecretEncryption pfx kvs latest).AllSecretsUseLatestProvider
        = true ↔
      ∀ kv ∈ kvs, ∀ n, classifySeq pfx kv = some n → n = latest) ∧
    (∀ (acc : EncryptionAnalysisResult) (kv : List Char × List Char) (n : Int),
      classifySeq pfx kv = some n → n ≠ latest →
      (analyzeStep pfx latest acc kv).AllSecretsUseLatestProvider = false) ∧
    (∀ (acc : EncryptionAnalysisResult)
      (rest : List (List Char × List Char)),
      acc.AllSecretsUseLatestProvider = false →
      (List.foldl (analyzeStep pfx latest) acc rest).AllSecretsUseLatestProvider
        = false) ∧
    analyzeSecretEncryption pfx [] latest = ⟨[], [], true⟩ := by
  refine ⟨?_, fun acc kv n hn hne => ?_, fun acc rest h => ?_, rfl⟩
  · rw [analyzeSecretEncryption_eq]
    simp only [List.all_eq_true]
    constructor
    · intro h kv hkv
      exact (recOk_iff pfx latest kv).mp (h kv hkv)
    · intro h kv hkv
      exact (recOk_iff pfx latest kv).mpr (h kv hkv)
  · rw [analyzeStep_eq]
    have hok : recOk pfx latest kv = false := by
      unfold recOk
      rw [hn]
      simpa using hne
    simp [hok]
  · rw [analyze_foldl]
    simp [h]

/-! ## C6: parse errors skip the record, the batch continues -/

/-- C6: a record whose classification fails leaves the accumulator
untouched — it enters neither list and does not affect the flag — and the
whole batch result is as if the record were absent, every other record being
processed normally. -/
theorem claim6_skip_on_error (pfx : List Char) (latest : Int) :
    (∀ (acc : EncryptionAnalysisResult) (kv : List Char × List Char)
      (e : ParseErr),
      (parseEtcdObjectL kv.1 kv.2 pfx).err = some e →
      analyzeStep pfx latest acc kv = acc) ∧
    (∀ (pre post : List (List Char × List Char)) (kv : List Char × List Char)
      (e : ParseErr),
      (parseEtcdObjectL kv.1 kv.2 pfx).err = some e →
      analyzeSecretEncryption pfx (pre ++ kv :: post) latest =
        analyzeSecretEncryption pfx (pre ++ post) latest) := by
  refine ⟨fun acc kv e he => ?_, fun pre post kv e he => ?_⟩
  · simp only [analyzeStep, he]
  · have hen : encOut pfx kv = none := by
      unfold encOut
      rw [he]
    have hun : unencOut pfx kv = none := by
      unfold unencOut
      rw [he]
    have hok : recOk pfx latest kv = true := by
      unfold recOk classifySeq
      rw [he]
    rw [analyzeSecretEncryption_eq, analyzeSecretEncryption_eq]
    simp [List.filterMap_append, List.filterMap_cons, hen, hun, hok,
      List.all_append]

/-! ## Helper lemmas about the provider-generation resolver -/

theorem scanProviders_eq_findSome (pfx : List Char) (provs : List Provider) :
    scanProviders pfx provs = provs.findSome? (kmsEntrySeq pfx) := by
  induction provs with
  | nil => rfl
  | cons p rest ih =>
    simp only [scanProviders, List.findSome?_cons, ih]
    cases kmsEntrySeq pfx p <;> rfl

theorem scanResources_eq_findSome (pfx : List Char) (ress : List Resource) :
    scanResources pfx ress =
      (ress.flatMap Resource.Providers).findSome? (kmsEntrySeq pfx) := by
  induction ress with
  | nil => rfl
  | cons r rest ih =>
    simp only [scanResources, List.flatMap_cons, List.findSome?_append, ih,
      scanProviders_eq_findSome]
    cases (r.Providers).findSome? (kmsEntrySeq pfx) <;> simp [Option.or]

theorem findSome?_middle_none {α β : Type} (f : α → Option β)
    (l1 l2 : List α) (a : α) (ha : f a = none) :
    (l1 ++ a :: l2).findSome? f = (l1 ++ l2).findSome? f := by
  simp [List.findSome?_append, List.findSome?_cons, ha]

/-! ## C3: a KMS entry whose name fails the pattern is skipped -/

/-- C3: a provider entry of kind KMS whose declared name contains no
occurrence of the provider name prefix followed by digits is skipped without
error — the provider scan and the whole resolution give the same result with
or without the entry, and scanning continues with the remaining providers and
rules. -/
theorem claim3_skip_unmatched_kms (pfx : List Char) (prov : Provider)
    (kms : KMSProvider) (hk : prov.KMS = some kms)
    (hm : regexFindDigits pfx kms.Name = none) :
    (∀ rest, scanProviders pfx (prov :: rest) = scanProviders pfx rest) ∧
    (∀ apiv kind pre provs1 provs2 rs post,
      getLatestProviderSeq pfx
        ⟨apiv, kind, pre ++ Resource.mk (provs1 ++ prov :: provs2) rs :: post⟩ =
      getLatestProviderSeq pfx
        ⟨apiv, kind, pre ++ Resource.mk (provs1 ++ provs2) rs :: post⟩) := by
  have hseq : kmsEntrySeq pfx prov = none := by
    simp only [kmsEntrySeq, hk, hm]
  refine ⟨fun rest => ?_, fun apiv kind pre provs1 provs2 rs post => ?_⟩
  · simp only [scanProviders, hseq]
  · unfold getLatestProviderSeq
    simp only [scanResources_eq_findSome, List.flatMap_append,
      List.flatMap_cons]
    rw [show pre.flatMap Resource.Providers ++
        ((provs1 ++ prov :: provs2) ++ post.flatMap Resource.Providers) =
        (pre.flatMap Resource.Providers ++ provs1) ++
          prov :: (provs2 ++ post.flatMap Resource.Providers) by
      simp [List.append_assoc]]
    rw [findSome?_middle_none _ _ _ _ hseq]
    simp [List.append_assoc]

/-- Witness for C3 at a concrete skipped entry. -/
theorem claim3_skip_unmatched_kms_witness :
    (∀ rest,
      scanProviders "kmsprovider".toList
        (Provider.mk (some (KMSProvider.mk [] [] "identity".toList)) false
          :: rest) =
      scanProviders "kmsprovider".toList rest) ∧
    (∀ apiv kind pre provs1 provs2 rs post,
      getLatestProviderSeq "kmsprovider".toList
        ⟨apiv, kind, pre ++ Resource.mk
          (provs1 ++ Provider.mk
            (some (KMSProvider.mk [] [] "identity".toList)) false
            :: provs2) rs :: post⟩ =
      getLatestProviderSeq "kmsprovider".toList
        ⟨apiv, kind, pre ++ Resource.mk (provs1 ++ provs2) rs :: post⟩) :=
  claim3_skip_unmatched_kms "kmsprovider".toList
    (Provider.mk (some (KMSProvider.mk [] [] "identity".toList)) false)
    (KMSProvider.mk [] [] "identity".toList) rfl (by decide)

/-! ## C4: first-match resolution in document order, identity sentinel -/

/-- C4: resolution scans rules and providers in document order and returns
the generation of the first KMS entry that matches and parses, never
consulting later entries; a config with matching providers named
`kmsprovider5` then `kmsprovider7` (in different rules) resolves to `5`; and
when no rule contains a matching KMS provider the identity sentinel `-1` is
returned. -/
theorem claim4_first_match (pfx : List Char) (cfg : EncryptionConfiguration) :
    (getLatestProviderSeq pfx cfg =
      ((cfg.Resources.flatMap Resource.Providers).findSome?
        (kmsEntrySeq pfx)).getD identityProviderSeq) ∧
    (∀ l1 prov l2 n,
      cfg.Resources.flatMap Resource.Providers = l1 ++ prov :: l2 →
      (∀ q ∈ l1, kmsEntrySeq pfx q = none) → kmsEntrySeq pfx prov = some n →
      getLatestProviderSeq pfx cfg = n) ∧
    ((∀ prov ∈ cfg.Resources.flatMap Resource.Providers,
        kmsEntrySeq pfx prov = none) →
      getLatestProviderSeq pfx cfg = -1) ∧
    getLatestProviderSeq "kmsprovider".toList
      ⟨[], [],
        [Resource.mk [Provider.mk
            (some (KMSProvider.mk [] [] "kmsprovider5".toList)) false] [],
         Resource.mk [Provider.mk
            (some (KMSProvider.mk [] [] "kmsprovider7".toList)) false] []]⟩
      = 5 := by
  have hchar : getLatestProviderSeq pfx cfg =
      ((cfg.Resources.flatMap Resource.Providers).findSome?
        (kmsEntrySeq pfx)).getD identityProviderSeq := by
    unfold getLatestProviderSeq
    rw [scanResources_eq_findSome]
  refine ⟨hchar, fun l1 prov l2 n hsplit hall hn => ?_, fun hall => ?_,
    by decide⟩
  · rw [hchar, hsplit, List.findSome?_append,
      List.findSome?_eq_none_iff.mpr hall, List.findSome?_cons, hn]
    rfl
  · rw [hchar, List.findSome?_eq_none_iff.mpr hall]
    rfl

/-! ## Helper lemmas about the recorder -/

theorem latestKey_ne_encryptedKey :
    encryptedByLatestProviderKey ≠ encryptedSecretsKey := by decide

theorem latestKey_ne_unencryptedKey :
    encryptedByLatestProviderKey ≠ unencryptedSecretsKey := by decide

theorem encryptedKey_ne_unencryptedKey :
    encryptedSecretsKey ≠ unencryptedSecretsKey := by decide

theorem recordData_latest_of_unenc_ne_nil (existing : Option CMData)
    (enc unenc : List (List Char)) (allLatest : Bool) (h : unenc ≠ []) :
    recordData existing enc unenc allLatest
      encryptedByLatestProviderKey = none := by
  have hne : unenc.isEmpty = false := by
    cases unenc with
    | nil => exact absurd rfl h
    | cons a t => rfl
  cases existing with
  | none =>
    simp [recordData, createConfigMapData, mapSet, emptyCMData, hne,
      latestKey_ne_encryptedKey, latestKey_ne_unencryptedKey]
  | some d =>
    simp [recordData, updateConfigMapData, mapSet, mapDelete, hne,
      latestKey_ne_encryptedKey, latestKey_ne_unencryptedKey]

theorem recordData_latest_of_unenc_nil (existing : Option CMData)
    (enc : List (List Char)) (allLatest : Bool) :
    recordData existing enc [] allLatest encryptedByLatestProviderKey =
      some (fmtBool allLatest) := by
  cases existing with
  | none => simp [recordData, createConfigMapData, mapSet]
  | some d => simp [recordData, updateConfigMapData, mapSet]

/-! ## C8: the optional boolean field is stored only for all-encrypted
batches -/

/-- C8: the stored data carries the `ENCRYPTED_BY_LATEST_SEQ` field exactly
when the recorder's unencrypted list is empty, i.e. when every record of the
batch handed to the recorder was encrypted: any unencrypted record in the
batch means the stored data has no such field (on both the create and the
update path), and an all-encrypted batch stores the boolean.  Composed with
the analyzer: a batch in which every record classifies successfully and some
record is not encrypted never stores the field. -/
theorem claim8_latest_field_presence (existing : Option CMData)
    (enc unenc : List (List Char)) (allLatest : Bool) :
    (unenc ≠ [] →
      recordData existing enc unenc allLatest
        encryptedByLatestProviderKey = none) ∧
    (unenc = [] →
      recordData existing enc unenc allLatest
        encryptedByLatestProviderKey = some (fmtBool allLatest)) ∧
    (∀ (pfx : List Char) (latest : Int)
      (kvs : List (List Char × List Char)),
      (∃ kv ∈ kvs, (parseEtcdObjectL kv.1 kv.2 pfx).err = none ∧
        (parseEtcdObjectL kv.1 kv.2 pfx).encrypted = false) →
      recordData existing
        (analyzeSecretEncryption pfx kvs latest).EncryptedSecrets
        (analyzeSecretEncryption pfx kvs latest).UnencryptedSecrets
        (analyzeSecretEncryption pfx kvs latest).AllSecretsUseLatestProvider
        encryptedByLatestProviderKey = none) := by
  refine ⟨recordData_latest_of_unenc_ne_nil existing enc unenc allLatest,
    fun h => ?_, fun pfx latest kvs hex => ?_⟩
  · subst h
    exact recordData_latest_of_unenc_nil existing enc allLatest
  · obtain ⟨kv, hkv, herr, henc⟩ := hex
    have hsome : unencOut pfx kv = some (parseEtcdObjectL kv.1 kv.2 pfx).secret := by
      unfold unencOut
      rw [herr, henc]
    have hmem : (parseEtcdObjectL kv.1 kv.2 pfx).secret ∈
        kvs.filterMap (unencOut pfx) :=
      List.mem_filterMap.mpr ⟨kv, hkv, hsome⟩
    have hne : (analyzeSecretEncryption pfx kvs latest).UnencryptedSecrets ≠ [] := by
      rw [analyzeSecretEncryption_eq]
      exact List.ne_nil_of_mem hmem
    exact recordData_latest_of_unenc_ne_nil existing _ _ _ hne

/-! ## C10: updating an existing report leaves no stale data -/

/-- C10: on the update path, when not every secret is encrypted the stored
data has no `ENCRYPTED_BY_LATEST_SEQ` field even if the pre-existing map
carried one, and the `ENCRYPTED` and `UNENCRYPTED` fields are always
overwritten with the newly formatted values. -/
theorem claim10_update_consistency (d : CMData)
    (enc unenc : List (List Char)) (allLatest : Bool) :
    (unenc ≠ [] →
      recordData (some d) enc unenc allLatest
        encryptedByLatestProviderKey = none) ∧
    recordData (some d) enc unenc allLatest encryptedSecretsKey =
      some (formatSecretLists enc unenc).1 ∧
    recordData (some d) enc unenc allLatest unencryptedSecretsKey =
      some (formatSecretLists enc unenc).2 := by
  refine ⟨recordData_latest_of_unenc_ne_nil (some d) enc unenc allLatest,
    ?_, ?_⟩ <;>
  · cases h : unenc.isEmpty <;>
      simp [recordData, updateConfigMapData, mapSet, mapDelete, h,
        latestKey_ne_encryptedKey, latestKey_ne_unencryptedKey,
        encryptedKey_ne_unencryptedKey,
        latestKey_ne_encryptedKey.symm, latestKey_ne_unencryptedKey.symm,
        encryptedKey_ne_unencryptedKey.symm]

/-! ## C2: generation extraction from the fifth colon field

The claim as stated is false on the code: `strings.TrimPrefix` leaves the
field unchanged when it does not start with the provider name prefix, so a
fifth field that is itself a number parses successfully instead of failing;
and `strconv.Atoi` accepts signed numbers, so a negative suffix also parses
successfully. -/

theorem trimPrefixL_append (pfx ds : List Char) :
    trimPrefixL pfx (pfx ++ ds) = ds := by
  unfold trimPrefixL
  rw [if_pos (by simp), List.drop_left]

theorem goAtoiL_digits (ds : List Char) (hne : ds ≠ [])
    (hdig : ds.all Char.isDigit = true)
    (hlt : (digitsVal ds : Int) < 2 ^ 63) :
    goAtoiL ds = some (digitsVal ds) := by
  obtain ⟨c, t, rfl⟩ := List.exists_cons_of_ne_nil hne
  have hc : c.isDigit = true := by
    simp [List.all_cons] at hdig
    exact hdig.1
  have hcm : ¬ ((c :: t).headD ' ' = '-') := by
    simp only [List.headD_cons]
    intro h
    rw [h] at hc
    exact absurd hc (by decide)
  have hcp : ¬ ((c :: t).headD ' ' = '+') := by
    simp only [List.headD_cons]
    intro h
    rw [h] at hc
    exact absurd hc (by decide)
  unfold goAtoiL
  rw [if_neg hcm, if_neg hcp]
  unfold goAtoiCore
  rw [if_pos ⟨hne, hdig⟩]
  have hge : (0 : Int) ≤ (digitsVal (c :: t) : Int) := Int.natCast_nonneg _
  rw [if_pos ⟨le_trans (neg_nonpos_of_nonneg (by positivity))
    (by rw [one_mul]; exact hge), by rw [one_mul]; exact hlt⟩]
  simp

/-- C2 counterexample: with provider name prefix `kmsprovider`, the encrypted
value `k8s:enc:kms:v2:123:x` — whose fifth field `123` does not start with
the prefix — is classified successfully with generation `123` instead of
returning the conversion error the claim requires; likewise the suffix `-5`
(a negative number) parses successfully to generation `-5`. -/
theorem claim2_counterexample :
    ((parseEtcdObject "/registry/secrets/ns/s1" "k8s:enc:kms:v2:123:x"
        "kmsprovider").err = none ∧
     (parseEtcdObject "/registry/secrets/ns/s1" "k8s:enc:kms:v2:123:x"
        "kmsprovider").seq = 123 ∧
     "kmsprovider".toList.isPrefixOf
        ((splitOnChar ':' "k8s:enc:kms:v2:123:x".toList).getD 4 []) = false) ∧
    ((parseEtcdObject "/registry/secrets/ns/s1"
        "k8s:enc:kms:v2:kmsprovider-5:x" "kmsprovider").err = none ∧
     (parseEtcdObject "/registry/secrets/ns/s1"
        "k8s:enc:kms:v2:kmsprovider-5:x" "kmsprovider").seq = -5) := by
  decide

/-- C2 (amended): for every encrypted value with at least 6 colon fields and
a parseable key, classification succeeds with generation `N` exactly when Go
`Atoi` applied to `TrimPrefix(field5, providerNamePrefix)` — the fifth field
with the prefix stripped when present, the whole field otherwise — yields
`N`, an optionally signed decimal integer in the 64-bit range; otherwise the
conversion `ParseError` is returned.  In particular, when the fifth field is
the prefix followed by digits whose value is representable, classification
succeeds with that non-negative generation. -/
theorem claim2_generation_parse (k v pfx : List Char)
    (henc : etcdObjectValueKmsEncryptedPrefix.isPrefixOf v = true)
    (hkey : 5 ≤ (splitOnChar '/' k).length)
    (hval : 6 ≤ (splitOnChar ':' v).length) :
    (∀ ds, (splitOnChar ':' v).getD 4 [] = pfx ++ ds → ds ≠ [] →
      ds.all Char.isDigit = true → (digitsVal ds : Int) < 2 ^ 63 →
      (parseEtcdObjectL k v pfx).err = none ∧
      (parseEtcdObjectL k v pfx).encrypted = true ∧
      (parseEtcdObjectL k v pfx).seq = (digitsVal ds : Int)) ∧
    (∀ n, goAtoiL (trimPrefixL pfx ((splitOnChar ':' v).getD 4 [])) = some n →
      (parseEtcdObjectL k v pfx).err = none ∧
      (parseEtcdObjectL k v pfx).seq = n) ∧
    (goAtoiL (trimPrefixL pfx ((splitOnChar ':' v).getD 4 [])) = none →
      (parseEtcdObjectL k v pfx).err =
        some ParseErr.failedToConvertSeqToInt) := by
  have hbr := parseEtcdObjectL_encrypted_branch k v pfx (by omega) henc
    (by omega)
  refine ⟨fun ds hds hne hdig hlt => ?_, fun n hn => ?_, fun hn => ?_⟩
  · have hq : goAtoiL (trimPrefixL pfx ((splitOnChar ':' v).getD 4 [])) =
        some ((digitsVal ds : Int)) := by
      rw [hds, trimPrefixL_append]
      exact goAtoiL_digits ds hne hdig hlt
    rw [hbr, hq]
    exact ⟨rfl, rfl, rfl⟩
  · rw [hbr, hn]
    exact ⟨rfl, rfl⟩
  · rw [hbr, hn]

/-- Witness for C2 (amended) at the concrete record
`("/registry/secrets/ns/s1", "k8s:enc:kms:v2:kmsprovider12:x")`. -/
theorem claim2_generation_parse_witness :
    (∀ ds,
      (splitOnChar ':' "k8s:enc:kms:v2:kmsprovider12:x".toList).getD 4 [] =
        "kmsprovider".toList ++ ds → ds ≠ [] →
      ds.all Char.isDigit = true → (digitsVal ds : Int) < 2 ^ 63 →
      (parseEtcdObjectL "/registry/secrets/ns/s1".toList
        "k8s:enc:kms:v2:kmsprovider12:x".toList "kmsprovider".toList).err
          = none ∧
      (parseEtcdObjectL "/registry/secrets/ns/s1".toList
        "k8s:enc:kms:v2:kmsprovider12:x".toList "kmsprovider".toList).encrypted
          = true ∧
      (parseEtcdObjectL "/registry/secrets/ns/s1".toList
        "k8s:enc:kms:v2:kmsprovider12:x".toList "kmsprovider".toList).seq
          = (digitsVal ds : Int)) ∧
    (∀ n, goAtoiL (trimPrefixL "kmsprovider".toList
        ((splitOnChar ':' "k8s:enc:kms:v2:kmsprovider12:x".toList).getD 4 []))
          = some n →
      (parseEtcdObjectL "/registry/secrets/ns/s1".toList
        "k8s:enc:kms:v2:kmsprovider12:x".toList "kmsprovider".toList).err
          = none ∧
      (parseEtcdObjectL "/registry/secrets/ns/s1".toList
        "k8s:enc:kms:v2:kmsprovider12:x".toList "kmsprovider".toList).seq
          = n) ∧
    (goAtoiL (trimPrefixL "kmsprovider".toList
        ((splitOnChar ':' "k8s:enc:kms:v2:kmsprovider12:x".toList).getD 4 []))
          = none →
      (parseEtcdObjectL "/registry/secrets/ns/s1".toList
        "k8s:enc:kms:v2:kmsprovider12:x".toList "kmsprovider".toList).err
          = some ParseErr.failedToConvertSeqToInt) :=
  claim2_generation_parse "/registry/secrets/ns/s1".toList
    "k8s:enc:kms:v2:kmsprovider12:x".toList "kmsprovider".toList
    (by decide) (by decide) (by decide)

end KmsReporter

section SanityExamples
open KmsReporter

example : (parseEtcdObject "/registry/secrets/default/mysecret" "k8s:enc:kms:v2:kmsprovider1:abc" "kmsprovider").seq = 1 := by decide

example : (parseEtcdObject "/registry/secrets/default/mysecret" "k8s:enc:kms:v2:kmsprovider1:abc" "kmsprovider").err = none := by decide

example : (parseEtcdObject "/registry/secrets/ns/a/b/c" "plain" "kmsprovider").secret = "ns/a".toList := by decide

example : (parseEtcdObject "invalid-key" "plain" "kmsprovider").err = some ParseErr.invalidKeyFormat := by decide

example : (parseEtcdObject "/registry/secrets/ns/s1" "k8s:enc:kms:v2:123:x" "kmsprovider").seq = 123 := by decide

example : (parseEtcdObject "/registry/secrets/ns/s1" "k8s:enc:kms:v2:kmsprovider-5:x" "kmsprovider").seq = -5 := by decide

example : (parseEtcdObject "/registry/secrets/ns/s1" "k8s:enc:kms:v2:kmsprovider:x" "kmsprovider").err = some ParseErr.failedToConvertSeqToInt := by decide

example : (parseEtcdObject "/registry/secrets/ns/s1" "k8s:enc:kms:v2:kmsprovider9223372036854775808:x" "kmsprovider").err = some ParseErr.failedToConvertSeqToInt := by decide

example : (parseEtcdObject "/registry/secrets/ns/s1" "k8s:enc:kms:v2:kmsprovider9223372036854775807:x" "kmsprovider").seq = 9223372036854775807 := by decide

example :
    analyzeSecretEncryption "kmsprovider".toList
      [("/registry/secrets/default/s1".toList, "k8s:enc:kms:v2:kmsprovider1:x".toList),
       ("/registry/secrets/ns/s2".toList, "plain".toList)] 1 =
    ⟨["default/s1".toList], ["ns/s2".toList], false⟩ := by decide

example :
    analyzeSecretEncryption "kmsprovider".toList
      [("/registry/secrets/default/s1".toList, "k8s:enc:kms:v2:kmsprovider1:x".toList)] 1 =
    ⟨["default/s1".toList], [], true⟩ := by decide

example :
    getLatestProviderSeq "kmsprovider".toList
      ⟨[], [],
        [⟨[⟨some ⟨[], [], "kmsprovider5".toList⟩, false⟩,
           ⟨some ⟨[], [], "kmsprovider7".toList⟩, false⟩], []⟩]⟩ = 5 := by decide

example :
    getLatestProviderSeq "kmsprovider".toList
      ⟨[], [], [⟨[⟨none, true⟩], []⟩]⟩ = -1 := by decide

example : regexFindDigits "kmsprovider".toList "xkmsprovider12y".toList =
    some "12".toList := by decide

example : regexFindDigits "kmsprovider".toList "kmsprovider".toList = none := by decide

example :
    recordData none ["a/b".toList] [] true encryptedByLatestProviderKey =
    some "true".toList := by decide

example :
    recordData (some (mapSet emptyCMData encryptedByLatestProviderKey "true".toList))
      ["a/b".toList] ["c/d".toList] true encryptedByLatestProviderKey = none := by decide

example :
    recordData none ["a/b".toList] ["c/d".toList] true encryptedSecretsKey =
    some "a/b".toList := by decide

end SanityExamples
